import Mathlib

/-!
Shallow embedding of
`vertical-pod-autoscaler/pkg/utils/metrics/recommender/recommender.go`
(package `recommender`, the VPA Recommender metrics module).

The Go code is side-effecting: gauge writes go to a Prometheus sink.  Here
the sink is made explicit: each operation returns the list of gauge writes
it performs, and a gauge's final state is obtained by folding the writes
(last write wins).  `float64` values are modelled as exact rationals `ℚ`
(all numbers involved are integers or integer multiples of `1/1000`, far
inside the exactly-representable range relevant to the claims).  Go `int`
is modelled as `ℤ`, and the Go `map[objectCounterKey]int` as an association
list with unique keys, where a missing key reads as `0` — matching Go's
zero-value semantics for `oc.cnt[key]++`.
-/

namespace RecommenderMetrics

/-- Modelled from the spec (the `vpa_types` constants `UpdateModeOff`,
`UpdateModeInitial`, `UpdateModeRecreate`, `UpdateModeAuto` live outside
`src/`): the fixed known-mode string set used to pre-seed the counter,
mirroring `modes = []string{...}` in the source. -/
def modes : List String := ["Off", "Initial", "Recreate", "Auto"]

/-- Modelled from the spec (`k8s.io/apimachinery` `resource.Quantity` is
outside `src/`): an arbitrary-precision resource amount.  `Value()` is the
amount rounded up to whole units and `MilliValue()` the amount rounded up
to milli-units, per the quantity API's documented rounding. -/
structure Quantity where
  amt : ℚ
deriving DecidableEq

/-- Model of `q.Value()`: the plain integer value, fractions rounded up. -/
def Quantity.value (q : Quantity) : ℤ := ⌈q.amt⌉

/-- Model of `q.MilliValue()`: the milli-scaled integer value, fractions rounded up. -/
def Quantity.milliValue (q : Quantity) : ℤ := ⌈q.amt * 1000⌉

/-- Function `toFloat64` from the source: threshold-based conversion of a quantity
to a gauge value. -/
def toFloat64 (q : Quantity) : ℚ :=
  let v := q.value
  if v > 10000000 then (v : ℚ)
  else (q.milliValue : ℚ) * 0.001

/-- Modelled from the spec (`model.Vpa` and the recommendation types live
outside `src/`): one resource band of a container recommendation, exposing
the CPU and Memory quantities read by `ObserveVPARecommendation`. -/
structure ResourceBand where
  cpu : Quantity
  memory : Quantity
deriving DecidableEq

/-- Modelled from the spec: one container recommendation entry, with its
container name and the three bands. -/
structure ContainerRecommendation where
  containerName : String
  lowerBound : ResourceBand
  target : ResourceBand
  upperBound : ResourceBand
deriving DecidableEq

/-- Modelled from the spec (`model.Vpa` lives outside `src/`): the fields
of a managed VPA object that this metrics module reads.  `updateMode` is
the nullable mode pointer (`none` = unset); `hasRecommendation` models the
domain's `HasRecommendation()` accessor; `containerRecommendations` the
zero-or-more container recommendation entries (absent list = `[]`). -/
structure Vpa where
  vpaName : String
  vpaNamespace : String
  podSelector : String
  updateMode : Option String
  hasRecommendation : Bool
  containerRecommendations : List ContainerRecommendation
deriving DecidableEq

/-- Type `objectCounterKey` from the source: the bucket key (mode string,
has-recommendation flag). -/
structure objectCounterKey where
  mode : String
  has : Bool
deriving DecidableEq

/-- The association-list model of Go's `map[objectCounterKey]int`. -/
abbrev CntMap := List (objectCounterKey × ℤ)

/-- Go map read with zero-value default: `oc.cnt[k]` reads `0` when `k`
is absent. -/
def mapGet (m : CntMap) (k : objectCounterKey) : ℤ :=
  match m with
  | [] => 0
  | (k', v) :: rest => if k' = k then v else mapGet rest k

/-- Go map assignment `m[k] = v`: update in place when present, insert
otherwise. -/
def mapSet (m : CntMap) (k : objectCounterKey) (v : ℤ) : CntMap :=
  match m with
  | [] => [(k, v)]
  | (k', v') :: rest => if k' = k then (k, v) :: rest else (k', v') :: mapSet rest k v

/-- Go `m[k]++`: increment in place when present, insert with `1` (the
zero value incremented) otherwise. -/
def mapIncr (m : CntMap) (k : objectCounterKey) : CntMap :=
  match m with
  | [] => [(k, 1)]
  | (k', v) :: rest => if k' = k then (k', v + 1) :: rest else (k', v) :: mapIncr rest k

/-- Type `ObjectCounter` from the source: splits VPA objects into buckets. -/
structure ObjectCounter where
  cnt : CntMap
deriving DecidableEq

/-- Constructor `NewObjectCounter` from the source: fresh counter pre-seeded with a
zero entry for each known mode and both boolean flags. -/
def NewObjectCounter : ObjectCounter :=
  { cnt := modes.foldl
      (fun c m => mapSet (mapSet c ⟨m, false⟩ 0) ⟨m, true⟩ 0) [] }

/-- The bucket key `Add` computes for an object: the empty string when
the mode pointer is nil, the pointed-to mode string otherwise, paired with
`HasRecommendation()`. -/
def vpaKey (vpa : Vpa) : objectCounterKey :=
  { mode := match vpa.updateMode with
            | some m => m
            | none => ""
    has := vpa.hasRecommendation }

/-- Method `ObjectCounter.Add` from the source: increments the object's bucket. -/
def ObjectCounter.Add (oc : ObjectCounter) (vpa : Vpa) : ObjectCounter :=
  { cnt := mapIncr oc.cnt (vpaKey vpa) }

/-- A sequence of `Add` calls, first to last. -/
def addAll (oc : ObjectCounter) (vpas : List Vpa) : ObjectCounter :=
  vpas.foldl ObjectCounter.Add oc

/-- Rendering of `fmt.Sprintf %v` on a Go bool. -/
def fmtBool (b : Bool) : String :=
  if b then "true" else "false"

/-- One gauge write to the `vpa_objects_count` gauge vector: label values
(update_mode, has_recommendation) and the written value. -/
structure ObjectCountWrite where
  mode : String
  has : String
  value : ℚ
deriving DecidableEq

/-- Method `ObjectCounter.Observe` from the source: walks the bucket map and
writes each bucket's count to the sink.  The receiver is returned
unchanged — the loop body only reads `oc.cnt`. -/
def ObjectCounter.Observe (oc : ObjectCounter) : ObjectCounter × List ObjectCountWrite :=
  (oc, oc.cnt.map fun p => ⟨p.1.mode, fmtBool p.1.has, (p.2 : ℚ)⟩)

/-- One gauge write to the `vpa_recommendation` gauge vector: the six
label values and the written value. -/
structure RecWrite where
  vpaName : String
  vpaNamespace : String
  podSelector : String
  container : String
  recommendationType : String
  resourceName : String
  value : ℚ
deriving DecidableEq

/-- The six writes the loop body of `ObserveVPARecommendation` performs
for one container recommendation, in source order. -/
def containerWrites (vpa : Vpa) (r : ContainerRecommendation) : List RecWrite :=
  [ ⟨vpa.vpaName, vpa.vpaNamespace, vpa.podSelector, r.containerName, "lower_bound", "cpu", toFloat64 r.lowerBound.cpu⟩
  , ⟨vpa.vpaName, vpa.vpaNamespace, vpa.podSelector, r.containerName, "lower_bound", "memory", toFloat64 r.lowerBound.memory⟩
  , ⟨vpa.vpaName, vpa.vpaNamespace, vpa.podSelector, r.containerName, "target", "cpu", toFloat64 r.target.cpu⟩
  , ⟨vpa.vpaName, vpa.vpaNamespace, vpa.podSelector, r.containerName, "target", "memory", toFloat64 r.target.memory⟩
  , ⟨vpa.vpaName, vpa.vpaNamespace, vpa.podSelector, r.containerName, "upper_bound", "cpu", toFloat64 r.upperBound.cpu⟩
  , ⟨vpa.vpaName, vpa.vpaNamespace, vpa.podSelector, r.containerName, "upper_bound", "memory", toFloat64 r.upperBound.memory⟩ ]

/-- Function `ObserveVPARecommendation` from the source: for each container
recommendation, the six band/resource gauge writes. -/
def ObserveVPARecommendation (vpa : Vpa) : List RecWrite :=
  vpa.containerRecommendations.flatMap (containerWrites vpa)

/-- The `vpa_objects_count` gauge state: label tuple → current value.
`gaugeSet` is one `Set` call (last write wins). -/
def gaugeSet (g : String × String → ℚ) (labels : String × String) (v : ℚ) :
    String × String → ℚ :=
  fun l => if l = labels then v else g l

/-- Apply a list of `vpa_objects_count` writes to a gauge state, in order. -/
def applyWrites (g : String × String → ℚ) (ws : List ObjectCountWrite) :
    String × String → ℚ :=
  ws.foldl (fun g' w => gaugeSet g' (w.mode, w.has) w.value) g

/-- The key list of the bucket map. -/
def mapKeys (m : CntMap) : List objectCounterKey :=
  m.map Prod.fst

/-- The sum of all bucket counts. -/
def cntTotal (m : CntMap) : ℤ :=
  (m.map Prod.snd).sum

/-- The last write in `ws` whose labels are `l`, if any. -/
def lastWrite (ws : List ObjectCountWrite) (l : String × String) :
    Option ObjectCountWrite :=
  ws.reverse.find? (fun w => decide ((w.mode, w.has) = l))

/-- Sample data for concrete witnesses: a band of 100m CPU (amount
`1/10`) and 256Mi memory (amount `268435456`). -/
def sampleBand : ResourceBand := ⟨⟨1/10⟩, ⟨268435456⟩⟩

/-- Sample container recommendation. -/
def sampleRec : ContainerRecommendation := ⟨"c1", sampleBand, sampleBand, sampleBand⟩

/-- Sample VPA object in mode `Auto` with two container recommendations. -/
def sampleVpa2 : Vpa :=
  ⟨"v", "ns", "sel", some "Auto", true,
    [sampleRec, ⟨"c2", sampleBand, sampleBand, sampleBand⟩]⟩

/-- Sample VPA object in mode `Auto` with no container recommendations. -/
def sampleVpa0 : Vpa := ⟨"v", "ns", "sel", some "Auto", false, []⟩

/-- Second sample VPA object mapping to the bucket `("Auto", true)`. -/
def sampleVpaAuto : Vpa := ⟨"v2", "ns2", "sel2", some "Auto", true, []⟩

/-! ### Association-list map lemmas -/

theorem mapKeys_cons (k : objectCounterKey) (v : ℤ) (rest : CntMap) :
    mapKeys ((k, v) :: rest) = k :: mapKeys rest := rfl

theorem mapIncr_cons_self (k : objectCounterKey) (v : ℤ) (rest : CntMap) :
    mapIncr ((k, v) :: rest) k = (k, v + 1) :: rest := by
  simp [mapIncr]

theorem mapIncr_cons_ne (k k3 : objectCounterKey) (v : ℤ) (rest : CntMap)
    (h : k3 ≠ k) : mapIncr ((k3, v) :: rest) k = (k3, v) :: mapIncr rest k := by
  simp [mapIncr, h]

theorem mapGet_mapIncr_self (m : CntMap) (k : objectCounterKey) :
    mapGet (mapIncr m k) k = mapGet m k + 1 := by
  induction m with
  | nil => simp [mapIncr, mapGet]
  | cons p rest ih =>
    obtain ⟨k2, v⟩ := p
    by_cases h : k2 = k <;> simp [mapIncr, mapGet, h, ih]

theorem mapGet_mapIncr_ne (m : CntMap) (k k2 : objectCounterKey) (h : k2 ≠ k) :
    mapGet (mapIncr m k) k2 = mapGet m k2 := by
  have hne : k ≠ k2 := Ne.symm h
  induction m with
  | nil => simp [mapIncr, mapGet, hne]
  | cons p rest ih =>
    obtain ⟨k3, v⟩ := p
    by_cases h3 : k3 = k
    · subst h3
      simp [mapIncr, mapGet, hne]
    · simp [mapIncr, mapGet, h3, ih]

theorem mem_mapKeys_mapIncr_self (m : CntMap) (k : objectCounterKey) :
    k ∈ mapKeys (mapIncr m k) := by
  induction m with
  | nil => simp [mapIncr, mapKeys]
  | cons p rest ih =>
    obtain ⟨k3, v⟩ := p
    by_cases h3 : k3 = k
    · subst h3
      simp [mapIncr, mapKeys]
    · simp only [mapIncr, if_neg h3, mapKeys, List.map_cons]
      exact List.mem_cons_of_mem _ ih

theorem mem_mapKeys_mapIncr_iff (m : CntMap) (k k2 : objectCounterKey) :
    k2 ∈ mapKeys (mapIncr m k) ↔ k2 ∈ mapKeys m ∨ k2 = k := by
  induction m with
  | nil => simp [mapIncr, mapKeys]
  | cons p rest ih =>
    obtain ⟨k3, v⟩ := p
    by_cases h3 : k3 = k
    · subst h3
      rw [mapIncr_cons_self, mapKeys_cons, mapKeys_cons]
      simp only [List.mem_cons]
      tauto
    · rw [mapIncr_cons_ne _ _ _ _ h3, mapKeys_cons, mapKeys_cons]
      simp only [List.mem_cons, ih]
      tauto

theorem mem_of_mem_mapIncr_ne (m : CntMap) (k : objectCounterKey)
    (p : objectCounterKey × ℤ) (hp : p ∈ mapIncr m k) (hne : p.1 ≠ k) : p ∈ m := by
  induction m with
  | nil =>
    simp [mapIncr] at hp
    rw [hp] at hne
    simp at hne
  | cons q rest ih =>
    obtain ⟨k3, v⟩ := q
    by_cases h3 : k3 = k
    · subst h3
      simp only [mapIncr, if_pos rfl] at hp
      rcases List.mem_cons.mp hp with hp2 | hp2
      · exfalso
        rw [hp2] at hne
        simp at hne
      · exact List.mem_cons_of_mem _ hp2
    · simp only [mapIncr, if_neg h3] at hp
      rcases List.mem_cons.mp hp with hp2 | hp2
      · exact hp2 ▸ List.mem_cons_self _ _
      · exact List.mem_cons_of_mem _ (ih hp2)

theorem entry_mem_of_mem_mapKeys (m : CntMap) (k : objectCounterKey)
    (hk : k ∈ mapKeys m) : (k, mapGet m k) ∈ m := by
  induction m with
  | nil => simp [mapKeys] at hk
  | cons q rest ih =>
    obtain ⟨k3, v⟩ := q
    by_cases h3 : k3 = k
    · subst h3
      simp [mapGet]
    · have hk2 : k ∈ mapKeys rest := by
        rw [mapKeys_cons] at hk
        rcases List.mem_cons.mp hk with h | h
        · exact absurd h.symm h3
        · exact h
      have hg : mapGet ((k3, v) :: rest) k = mapGet rest k := by
        simp [mapGet, h3]
      rw [hg]
      exact List.mem_cons_of_mem _ (ih hk2)

theorem entry_snd_of_nodupKeys (m : CntMap) (hnd : (mapKeys m).Nodup)
    (p : objectCounterKey × ℤ) (hp : p ∈ m) : p.2 = mapGet m p.1 := by
  induction m with
  | nil => simp at hp
  | cons q rest ih =>
    obtain ⟨k3, v⟩ := q
    rw [show mapKeys ((k3, v) :: rest) = k3 :: mapKeys rest from rfl,
      List.nodup_cons] at hnd
    rcases List.mem_cons.mp hp with hp2 | hp2
    · subst hp2
      simp [mapGet]
    · have h3 : k3 ≠ p.1 := by
        intro h
        exact hnd.1 (by rw [h]; exact List.mem_map_of_mem Prod.fst hp2)
      simp [mapGet, h3, ih hnd.2 hp2]

theorem mem_iff_of_nodupKeys (m : CntMap) (hnd : (mapKeys m).Nodup)
    (k : objectCounterKey) (v : ℤ) :
    (k, v) ∈ m ↔ k ∈ mapKeys m ∧ mapGet m k = v := by
  constructor
  · intro h
    exact ⟨List.mem_map_of_mem Prod.fst h, (entry_snd_of_nodupKeys m hnd _ h).symm⟩
  · rintro ⟨hk, rfl⟩
    exact entry_mem_of_mem_mapKeys m k hk

theorem mapKeys_nodup_mapIncr (m : CntMap) (k : objectCounterKey)
    (hnd : (mapKeys m).Nodup) : (mapKeys (mapIncr m k)).Nodup := by
  induction m with
  | nil => simp [mapIncr, mapKeys]
  | cons q rest ih =>
    obtain ⟨k3, v⟩ := q
    rw [mapKeys_cons, List.nodup_cons] at hnd
    by_cases h3 : k3 = k
    · subst h3
      rw [mapIncr_cons_self, mapKeys_cons, List.nodup_cons]
      exact hnd
    · rw [mapIncr_cons_ne _ _ _ _ h3, mapKeys_cons, List.nodup_cons]
      refine ⟨?_, ih hnd.2⟩
      intro hmem
      rcases (mem_mapKeys_mapIncr_iff rest k k3).mp hmem with h | h
      · exact hnd.1 h
      · exact h3 h

theorem cntTotal_cons (k : objectCounterKey) (v : ℤ) (rest : CntMap) :
    cntTotal ((k, v) :: rest) = v + cntTotal rest := by
  simp [cntTotal]

theorem cntTotal_mapIncr (m : CntMap) (k : objectCounterKey) :
    cntTotal (mapIncr m k) = cntTotal m + 1 := by
  induction m with
  | nil => simp [mapIncr, cntTotal]
  | cons q rest ih =>
    obtain ⟨k3, v⟩ := q
    by_cases h3 : k3 = k
    · simp only [mapIncr, if_pos h3, cntTotal_cons]
      ring
    · simp only [mapIncr, if_neg h3, cntTotal_cons, ih]
      ring

theorem nonneg_mapIncr (m : CntMap) (k : objectCounterKey)
    (hall : ∀ p ∈ m, 0 ≤ p.2) : ∀ p ∈ mapIncr m k, 0 ≤ p.2 := by
  induction m with
  | nil =>
    intro p hp
    simp [mapIncr] at hp
    simp [hp]
  | cons q rest ih =>
    obtain ⟨k3, v⟩ := q
    intro p hp
    by_cases h3 : k3 = k
    · simp only [mapIncr, if_pos h3] at hp
      rcases List.mem_cons.mp hp with hp2 | hp2
      · have hv : (0 : ℤ) ≤ v := hall (k3, v) (List.mem_cons_self _ _)
        rw [hp2]
        simpa using by omega
      · exact hall p (List.mem_cons_of_mem _ hp2)
    · simp only [mapIncr, if_neg h3] at hp
      rcases List.mem_cons.mp hp with hp2 | hp2
      · exact hall p (hp2 ▸ List.mem_cons_self _ _)
      · exact ih (fun q hq => hall q (List.mem_cons_of_mem _ hq)) p hp2
/-! ### Fresh-counter facts -/

theorem NewObjectCounter_cnt_eq :
    NewObjectCounter.cnt =
      [ (⟨"Off", false⟩, 0), (⟨"Off", true⟩, 0),
        (⟨"Initial", false⟩, 0), (⟨"Initial", true⟩, 0),
        (⟨"Recreate", false⟩, 0), (⟨"Recreate", true⟩, 0),
        (⟨"Auto", false⟩, 0), (⟨"Auto", true⟩, 0) ] := by
  decide

theorem mapGet_fresh_zero (k : objectCounterKey) :
    mapGet NewObjectCounter.cnt k = 0 := by
  rw [NewObjectCounter_cnt_eq]
  simp only [mapGet]
  split_ifs <;> rfl

theorem mem_mapKeys_fresh (k : objectCounterKey) :
    k ∈ mapKeys NewObjectCounter.cnt ↔ k.mode ∈ modes := by
  obtain ⟨mo, hs⟩ := k
  rw [NewObjectCounter_cnt_eq]
  cases hs <;>
    simp [mapKeys, modes, objectCounterKey.mk.injEq]

theorem mapKeys_fresh_nodup : (mapKeys NewObjectCounter.cnt).Nodup := by
  rw [NewObjectCounter_cnt_eq]
  decide

theorem fresh_entries_zero : ∀ p ∈ NewObjectCounter.cnt, p.2 = 0 := by
  have h : NewObjectCounter.cnt.all (fun p => decide (p.2 = 0)) = true := by decide
  intro p hp
  simpa using List.all_eq_true.mp h p hp

theorem cntTotal_fresh : cntTotal NewObjectCounter.cnt = 0 := by
  rw [NewObjectCounter_cnt_eq]
  rfl

/-! ### `Add` sequences -/

theorem addAll_nil (oc : ObjectCounter) : addAll oc [] = oc := rfl

theorem addAll_cons (oc : ObjectCounter) (v : Vpa) (vpas : List Vpa) :
    addAll oc (v :: vpas) = addAll (oc.Add v) vpas := rfl

theorem Add_cnt (oc : ObjectCounter) (v : Vpa) :
    (oc.Add v).cnt = mapIncr oc.cnt (vpaKey v) := rfl

theorem mapGet_addAll (oc : ObjectCounter) (vpas : List Vpa) (k : objectCounterKey) :
    mapGet (addAll oc vpas).cnt k
      = mapGet oc.cnt k + ((vpas.map vpaKey).count k : ℤ) := by
  induction vpas generalizing oc with
  | nil => simp [addAll]
  | cons v rest ih =>
    rw [addAll_cons, ih, Add_cnt]
    by_cases h : vpaKey v = k
    · rw [h, mapGet_mapIncr_self]
      simp [List.count_cons, h]
      ring
    · rw [mapGet_mapIncr_ne _ _ _ (fun hh => h hh.symm)]
      simp [List.count_cons, h]

theorem mem_mapKeys_addAll (oc : ObjectCounter) (vpas : List Vpa) (k : objectCounterKey) :
    k ∈ mapKeys (addAll oc vpas).cnt ↔ k ∈ mapKeys oc.cnt ∨ k ∈ vpas.map vpaKey := by
  induction vpas generalizing oc with
  | nil => simp [addAll]
  | cons v rest ih =>
    rw [addAll_cons, ih, Add_cnt, mem_mapKeys_mapIncr_iff]
    simp [List.mem_cons]
    tauto

theorem mapKeys_nodup_addAll (oc : ObjectCounter) (vpas : List Vpa)
    (hnd : (mapKeys oc.cnt).Nodup) : (mapKeys (addAll oc vpas).cnt).Nodup := by
  induction vpas generalizing oc with
  | nil => exact hnd
  | cons v rest ih => exact ih _ (mapKeys_nodup_mapIncr _ _ hnd)

theorem nonneg_addAll (oc : ObjectCounter) (vpas : List Vpa)
    (hall : ∀ p ∈ oc.cnt, 0 ≤ p.2) : ∀ p ∈ (addAll oc vpas).cnt, 0 ≤ p.2 := by
  induction vpas generalizing oc with
  | nil => exact hall
  | cons v rest ih => exact ih _ (nonneg_mapIncr _ _ hall)

theorem cntTotal_addAll (oc : ObjectCounter) (vpas : List Vpa) :
    cntTotal (addAll oc vpas).cnt = cntTotal oc.cnt + vpas.length := by
  induction vpas generalizing oc with
  | nil => simp [addAll]
  | cons v rest ih =>
    rw [addAll_cons, ih, Add_cnt, cntTotal_mapIncr]
    simp
    ring

/-! ### Observe and the gauge sink -/

theorem observe_writes_mem (oc : ObjectCounter) (k : objectCounterKey)
    (hk : k ∈ mapKeys oc.cnt) :
    (⟨k.mode, fmtBool k.has, (mapGet oc.cnt k : ℚ)⟩ : ObjectCountWrite)
      ∈ (ObjectCounter.Observe oc).2 :=
  List.mem_map_of_mem _ (entry_mem_of_mem_mapKeys oc.cnt k hk)

theorem observe_writes_shape (oc : ObjectCounter) (w : ObjectCountWrite)
    (hw : w ∈ (ObjectCounter.Observe oc).2) :
    ∃ p ∈ oc.cnt, w = ⟨p.1.mode, fmtBool p.1.has, (p.2 : ℚ)⟩ := by
  rcases List.mem_map.mp hw with ⟨p, hp, rfl⟩
  exact ⟨p, hp, rfl⟩

theorem fmtBool_inj (a b : Bool) (h : fmtBool a = fmtBool b) : a = b := by
  cases a <;> cases b
  · rfl
  · exact absurd h (by decide)
  · exact absurd h (by decide)
  · rfl

theorem applyWrites_cons (g : String × String → ℚ) (w : ObjectCountWrite)
    (rest : List ObjectCountWrite) :
    applyWrites g (w :: rest) = applyWrites (gaugeSet g (w.mode, w.has) w.value) rest := rfl

theorem applyWrites_eq_lastWrite (ws : List ObjectCountWrite)
    (g : String × String → ℚ) (l : String × String) :
    applyWrites g ws l = ((lastWrite ws l).map ObjectCountWrite.value).getD (g l) := by
  induction ws generalizing g with
  | nil => simp [applyWrites, lastWrite]
  | cons w rest ih =>
    rw [applyWrites_cons, ih]
    unfold lastWrite
    rw [List.reverse_cons, List.find?_append]
    cases hfind : rest.reverse.find? (fun x => decide ((x.mode, x.has) = l)) with
    | some x => simp [Option.or]
    | none =>
      by_cases hl : (w.mode, w.has) = l
      · simp [Option.or, List.find?, hl, gaugeSet]
      · simp [Option.or, List.find?, hl, gaugeSet, lastWrite, hfind]
        intro hh
        exact absurd hh.symm hl

theorem applyWrites_twice (g : String × String → ℚ) (ws : List ObjectCountWrite)
    (l : String × String) :
    applyWrites (applyWrites g ws) ws l = applyWrites g ws l := by
  rw [applyWrites_eq_lastWrite ws (applyWrites g ws) l]
  cases h : lastWrite ws l with
  | some w =>
    rw [applyWrites_eq_lastWrite ws g l, h]
    simp
  | none =>
    simp

/-! ### Permutation of whole bucket maps -/

theorem cnt_perm_of_same (m1 m2 : CntMap)
    (h1 : (mapKeys m1).Nodup) (h2 : (mapKeys m2).Nodup)
    (hkeys : ∀ k, k ∈ mapKeys m1 ↔ k ∈ mapKeys m2)
    (hget : ∀ k, mapGet m1 k = mapGet m2 k) : m1.Perm m2 := by
  apply List.perm_of_nodup_nodup_toFinset_eq
    (List.Nodup.of_map Prod.fst h1) (List.Nodup.of_map Prod.fst h2)
  ext p
  obtain ⟨k, v⟩ := p
  simp only [List.mem_toFinset]
  rw [mem_iff_of_nodupKeys m1 h1, mem_iff_of_nodupKeys m2 h2, hkeys, hget]

theorem toFloat64_eq (q : Quantity) :
    toFloat64 q = if 10000000 < q.value then (q.value : ℚ)
                  else (q.milliValue : ℚ) * 0.001 := rfl

theorem observeVPA_flatMap (vpa : Vpa) :
    ObserveVPARecommendation vpa
      = vpa.containerRecommendations.flatMap (containerWrites vpa) := rfl

theorem observeVPA_length_aux (vpa : Vpa) (rs : List ContainerRecommendation) :
    (rs.flatMap (containerWrites vpa)).length = 6 * rs.length := by
  induction rs with
  | nil => rfl
  | cons r rest ih =>
    rw [List.flatMap_cons, List.length_append, ih]
    simp [containerWrites]
    ring

/-! ### Claim theorems -/

/-- C1: a freshly constructed `ObjectCounter` on which no `Add` has been
called flushes (`Observe`) the value `0` under the label tuple
`(m, fmtBool h)` for every known mode `m` and boolean `h`, and its
pre-seeded bucket map's keys are exactly the cross product of the fixed
known-mode set with `{false, true}`. -/
theorem c1_fresh_counter_zero_fill :
    (∀ m h, m ∈ modes →
      (⟨m, fmtBool h, 0⟩ : ObjectCountWrite)
        ∈ (ObjectCounter.Observe NewObjectCounter).2) ∧
    (∀ k : objectCounterKey, k ∈ mapKeys NewObjectCounter.cnt ↔ k.mode ∈ modes) := by
  constructor
  · intro m h hm
    have hk : (⟨m, h⟩ : objectCounterKey) ∈ mapKeys NewObjectCounter.cnt :=
      (mem_mapKeys_fresh ⟨m, h⟩).mpr hm
    have hmem := observe_writes_mem NewObjectCounter ⟨m, h⟩ hk
    rw [mapGet_fresh_zero] at hmem
    simpa using hmem
  · exact mem_mapKeys_fresh

/-- Witness for C1: mode `"Auto"`, flag `true`. -/
theorem c1_fresh_counter_zero_fill_witness :
    (⟨"Auto", fmtBool true, 0⟩ : ObjectCountWrite)
      ∈ (ObjectCounter.Observe NewObjectCounter).2 ∧
    ((⟨"Auto", true⟩ : objectCounterKey) ∈ mapKeys NewObjectCounter.cnt ↔ "Auto" ∈ modes) :=
  ⟨c1_fresh_counter_zero_fill.1 "Auto" true (by decide),
   c1_fresh_counter_zero_fill.2 ⟨"Auto", true⟩⟩

/-- C2: `toFloat64` uses an exclusive threshold: a quantity whose plain
integer value exceeds 10,000,000 takes the direct-value path, and one
whose plain value is at or below 10,000,000 takes the milli-value path. -/
theorem c2_toFloat64_exclusive_threshold (q : Quantity) :
    (q.value > 10000000 → toFloat64 q = (q.value : ℚ)) ∧
    (q.value ≤ 10000000 → toFloat64 q = (q.milliValue : ℚ) * 0.001) := by
  constructor
  · intro h
    rw [toFloat64_eq, if_pos h]
  · intro h
    rw [toFloat64_eq, if_neg (not_lt.mpr h)]

/-- Witness for C2 at the boundary: plain value exactly 10,000,000 takes
the milli-value path; plain value 10,000,001 takes the direct path. -/
theorem c2_toFloat64_exclusive_threshold_witness :
    toFloat64 ⟨10000000⟩ = ((Quantity.milliValue ⟨10000000⟩ : ℤ) : ℚ) * 0.001 ∧
    toFloat64 ⟨10000001⟩ = ((Quantity.value ⟨10000001⟩ : ℤ) : ℚ) :=
  ⟨(c2_toFloat64_exclusive_threshold ⟨10000000⟩).2 (by norm_num [Quantity.value]),
   (c2_toFloat64_exclusive_threshold ⟨10000001⟩).1 (by norm_num [Quantity.value])⟩

/-- C5: an object with an unset (nil) mode pointer is bucketed under the
empty-string mode key: one `Add` of such an object with no recommendation
takes bucket `("", false)` from 0 to 1, leaves `("Auto", true)` at 0, and
the empty-string mode is distinct from every named mode. -/
theorem c5_nil_mode_empty_string_bucket (vpa : Vpa)
    (hmode : vpa.updateMode = none) (hrec : vpa.hasRecommendation = false) :
    mapGet (NewObjectCounter.Add vpa).cnt ⟨"", false⟩ = 1 ∧
    mapGet (NewObjectCounter.Add vpa).cnt ⟨"Auto", true⟩ = 0 ∧
    "" ∉ modes := by
  have hkey : vpaKey vpa = ⟨"", false⟩ := by
    simp [vpaKey, hmode, hrec]
  refine ⟨?_, ?_, by decide⟩
  · rw [Add_cnt, hkey, mapGet_mapIncr_self, mapGet_fresh_zero]
    norm_num
  · rw [Add_cnt, hkey, mapGet_mapIncr_ne _ _ _ (by decide), mapGet_fresh_zero]

/-- Witness for C5 at a concrete object with `updateMode = none`. -/
theorem c5_nil_mode_empty_string_bucket_witness :
    mapGet (NewObjectCounter.Add ⟨"v", "ns", "sel", none, false, []⟩).cnt ⟨"", false⟩ = 1 ∧
    mapGet (NewObjectCounter.Add ⟨"v", "ns", "sel", none, false, []⟩).cnt ⟨"Auto", true⟩ = 0 ∧
    "" ∉ modes :=
  c5_nil_mode_empty_string_bucket ⟨"v", "ns", "sel", none, false, []⟩ rfl rfl

/-- C6: `toFloat64` is monotonic within each branch: for quantities
`q1 < q2` whose plain values are both above, or both at-or-below, the
10,000,000 threshold, `toFloat64 q1 ≤ toFloat64 q2`. -/
theorem c6_toFloat64_monotonic_within_branch (q1 q2 : Quantity)
    (hlt : q1.amt < q2.amt)
    (hbranch : (q1.value > 10000000 ∧ q2.value > 10000000) ∨
               (q1.value ≤ 10000000 ∧ q2.value ≤ 10000000)) :
    toFloat64 q1 ≤ toFloat64 q2 := by
  have hv : q1.value ≤ q2.value := Int.ceil_mono (le_of_lt hlt)
  rcases hbranch with ⟨h1, h2⟩ | ⟨h1, h2⟩
  · rw [toFloat64_eq, toFloat64_eq, if_pos h1, if_pos h2]
    exact_mod_cast hv
  · have hm : q1.milliValue ≤ q2.milliValue := by
      unfold Quantity.milliValue
      exact Int.ceil_mono (by nlinarith)
    rw [toFloat64_eq, toFloat64_eq, if_neg (not_lt.mpr h1), if_neg (not_lt.mpr h2)]
    have hmq : (q1.milliValue : ℚ) ≤ (q2.milliValue : ℚ) := by exact_mod_cast hm
    nlinarith

/-- Witness for C6 at quantities with amounts 1 and 2, both below the
threshold. -/
theorem c6_toFloat64_monotonic_within_branch_witness :
    toFloat64 ⟨1⟩ ≤ toFloat64 ⟨2⟩ :=
  c6_toFloat64_monotonic_within_branch ⟨1⟩ ⟨2⟩ (by norm_num)
    (Or.inr ⟨by norm_num [Quantity.value], by norm_num [Quantity.value]⟩)

/-- C8: an object whose bucket key is not pre-seeded (its mode string is
not a recognized mode) gets its bucket created on demand by `Add` with
count 1, and the subsequent flush reports 1 for it. -/
theorem c8_on_demand_bucket_creation (vpa : Vpa)
    (hmode : (vpaKey vpa).mode ∉ modes) :
    vpaKey vpa ∉ mapKeys NewObjectCounter.cnt ∧
    mapGet (NewObjectCounter.Add vpa).cnt (vpaKey vpa) = 1 ∧
    vpaKey vpa ∈ mapKeys (NewObjectCounter.Add vpa).cnt ∧
    (⟨(vpaKey vpa).mode, fmtBool (vpaKey vpa).has, 1⟩ : ObjectCountWrite)
      ∈ (ObjectCounter.Observe (NewObjectCounter.Add vpa)).2 := by
  have hget : mapGet (NewObjectCounter.Add vpa).cnt (vpaKey vpa) = 1 := by
    rw [Add_cnt, mapGet_mapIncr_self, mapGet_fresh_zero]
    norm_num
  have hmem : vpaKey vpa ∈ mapKeys (NewObjectCounter.Add vpa).cnt := by
    rw [Add_cnt]
    exact mem_mapKeys_mapIncr_self _ _
  refine ⟨fun hin => hmode ((mem_mapKeys_fresh _).mp hin), hget, hmem, ?_⟩
  have hw := observe_writes_mem (NewObjectCounter.Add vpa) (vpaKey vpa) hmem
  rw [hget] at hw
  simpa using hw

/-- Witness for C8 at a concrete object with the unrecognized mode
string `"Foo"`. -/
theorem c8_on_demand_bucket_creation_witness :
    vpaKey ⟨"v", "ns", "sel", some "Foo", true, []⟩ ∉ mapKeys NewObjectCounter.cnt ∧
    mapGet (NewObjectCounter.Add ⟨"v", "ns", "sel", some "Foo", true, []⟩).cnt
      (vpaKey ⟨"v", "ns", "sel", some "Foo", true, []⟩) = 1 ∧
    vpaKey ⟨"v", "ns", "sel", some "Foo", true, []⟩
      ∈ mapKeys (NewObjectCounter.Add ⟨"v", "ns", "sel", some "Foo", true, []⟩).cnt ∧
    (⟨(vpaKey ⟨"v", "ns", "sel", some "Foo", true, []⟩).mode,
      fmtBool (vpaKey ⟨"v", "ns", "sel", some "Foo", true, []⟩).has, 1⟩ : ObjectCountWrite)
      ∈ (ObjectCounter.Observe
          (NewObjectCounter.Add ⟨"v", "ns", "sel", some "Foo", true, []⟩)).2 :=
  c8_on_demand_bucket_creation ⟨"v", "ns", "sel", some "Foo", true, []⟩ (by decide)

/-- C9: `ObserveVPARecommendation` has no error path in the model: an
object with an empty container-recommendation list produces zero sink
writes. -/
theorem c9_empty_recommendation_zero_writes (vpa : Vpa)
    (h : vpa.containerRecommendations = []) :
    ObserveVPARecommendation vpa = [] := by
  rw [observeVPA_flatMap, h]
  rfl

/-- Witness for C9 at a concrete object with no container
recommendations. -/
theorem c9_empty_recommendation_zero_writes_witness :
    ObserveVPARecommendation sampleVpa0 = [] :=
  c9_empty_recommendation_zero_writes sampleVpa0 rfl

/-- C3: `ObserveVPARecommendation` performs exactly 6 gauge writes per
container recommendation — one per pair in
`{lower_bound, target, upper_bound} × {cpu, memory}`, each value computed
by the quantity converter under the label tuple (object name, namespace,
pod-selector string, container name, band name, resource name) — and
every write it performs has that shape. -/
theorem c3_six_writes_per_container (vpa : Vpa) :
    (ObserveVPARecommendation vpa).length = 6 * vpa.containerRecommendations.length ∧
    (∀ r ∈ vpa.containerRecommendations,
      ∀ bandName resName q,
        (bandName, resName, q) ∈
          [("lower_bound", "cpu", r.lowerBound.cpu),
           ("lower_bound", "memory", r.lowerBound.memory),
           ("target", "cpu", r.target.cpu),
           ("target", "memory", r.target.memory),
           ("upper_bound", "cpu", r.upperBound.cpu),
           ("upper_bound", "memory", r.upperBound.memory)] →
        (⟨vpa.vpaName, vpa.vpaNamespace, vpa.podSelector, r.containerName,
          bandName, resName, toFloat64 q⟩ : RecWrite) ∈ ObserveVPARecommendation vpa) ∧
    (∀ w ∈ ObserveVPARecommendation vpa, ∃ r ∈ vpa.containerRecommendations,
        w.vpaName = vpa.vpaName ∧ w.vpaNamespace = vpa.vpaNamespace ∧
        w.podSelector = vpa.podSelector ∧ w.container = r.containerName ∧
        (w.recommendationType, w.resourceName, w.value) ∈
          [("lower_bound", "cpu", toFloat64 r.lowerBound.cpu),
           ("lower_bound", "memory", toFloat64 r.lowerBound.memory),
           ("target", "cpu", toFloat64 r.target.cpu),
           ("target", "memory", toFloat64 r.target.memory),
           ("upper_bound", "cpu", toFloat64 r.upperBound.cpu),
           ("upper_bound", "memory", toFloat64 r.upperBound.memory)]) := by
  refine ⟨?_, ?_, ?_⟩
  · rw [observeVPA_flatMap, observeVPA_length_aux]
  · intro r hr bandName resName q hq
    rw [observeVPA_flatMap]
    refine List.mem_flatMap.mpr ⟨r, hr, ?_⟩
    simp only [List.mem_cons, List.not_mem_nil, or_false, Prod.mk.injEq] at hq
    rcases hq with ⟨h1, h2, h3⟩ | ⟨h1, h2, h3⟩ | ⟨h1, h2, h3⟩ | ⟨h1, h2, h3⟩ |
      ⟨h1, h2, h3⟩ | ⟨h1, h2, h3⟩ <;>
      subst h1 <;> subst h2 <;> subst h3 <;> simp [containerWrites]
  · intro w hw
    rw [observeVPA_flatMap] at hw
    rcases List.mem_flatMap.mp hw with ⟨r, hr, hwr⟩
    refine ⟨r, hr, ?_⟩
    simp only [containerWrites, List.mem_cons, List.not_mem_nil, or_false] at hwr
    rcases hwr with rfl | rfl | rfl | rfl | rfl | rfl <;> simp

/-- Witness for C3: the two-container sample object yields 12 writes, the
zero-container sample yields 0, and a concrete `target`/`cpu` write with
the converted value is among the 12. -/
theorem c3_six_writes_per_container_witness :
    (ObserveVPARecommendation sampleVpa2).length = 12 ∧
    (ObserveVPARecommendation sampleVpa0).length = 0 ∧
    (⟨"v", "ns", "sel", "c1", "target", "cpu", toFloat64 ⟨1/10⟩⟩ : RecWrite)
      ∈ ObserveVPARecommendation sampleVpa2 := by
  refine ⟨?_, ?_, ?_⟩
  · have h := (c3_six_writes_per_container sampleVpa2).1
    simpa [sampleVpa2] using h
  · have h := (c3_six_writes_per_container sampleVpa0).1
    simpa [sampleVpa0] using h
  · have h := (c3_six_writes_per_container sampleVpa2).2.1 sampleRec
      (by simp [sampleVpa2]) "target" "cpu" sampleRec.target.cpu (by simp)
    simpa [sampleVpa2, sampleRec, sampleBand] using h

/-- C4: `k` same-key `Add` calls on a fresh counter leave that bucket at
`k` and every other bucket at its initial 0, both in the map and in the
flushed values; each single `Add` increments exactly its own bucket. -/
theorem c4_same_key_accumulation (vpas : List Vpa) (key : objectCounterKey)
    (hall : ∀ v ∈ vpas, vpaKey v = key) :
    mapGet (addAll NewObjectCounter vpas).cnt key = vpas.length ∧
    (∀ key2, key2 ≠ key → mapGet (addAll NewObjectCounter vpas).cnt key2 = 0) ∧
    (vpas ≠ [] →
      (⟨key.mode, fmtBool key.has, (vpas.length : ℚ)⟩ : ObjectCountWrite)
        ∈ (ObjectCounter.Observe (addAll NewObjectCounter vpas)).2) ∧
    (∀ w ∈ (ObjectCounter.Observe (addAll NewObjectCounter vpas)).2,
      ¬(w.mode = key.mode ∧ w.has = fmtBool key.has) → w.value = 0) ∧
    (∀ (oc : ObjectCounter) (v : Vpa),
      mapGet (oc.Add v).cnt (vpaKey v) = mapGet oc.cnt (vpaKey v) + 1 ∧
      ∀ k2, k2 ≠ vpaKey v → mapGet (oc.Add v).cnt k2 = mapGet oc.cnt k2) := by
  have hcount : mapGet (addAll NewObjectCounter vpas).cnt key = vpas.length := by
    rw [mapGet_addAll, mapGet_fresh_zero]
    have hc : (vpas.map vpaKey).count key = (vpas.map vpaKey).length := by
      refine List.count_eq_length.mpr ?_
      intro b hb
      rcases List.mem_map.mp hb with ⟨v, hv, rfl⟩
      rw [hall v hv]
    rw [hc, List.length_map]
    simp
  have hother : ∀ key2, key2 ≠ key →
      mapGet (addAll NewObjectCounter vpas).cnt key2 = 0 := by
    intro key2 hne
    rw [mapGet_addAll, mapGet_fresh_zero]
    have hc : (vpas.map vpaKey).count key2 = 0 := by
      refine List.count_eq_zero.mpr ?_
      intro hmem
      rcases List.mem_map.mp hmem with ⟨v, hv, hkv⟩
      exact hne (hkv.symm.trans (hall v hv))
    rw [hc]
    simp
  refine ⟨hcount, hother, ?_, ?_, ?_⟩
  · intro hne
    have hkmem : key ∈ mapKeys (addAll NewObjectCounter vpas).cnt := by
      rw [mem_mapKeys_addAll]
      right
      rcases vpas with _ | ⟨v, rest⟩
      · exact absurd rfl hne
      · rw [List.map_cons]
        exact (hall v (List.mem_cons_self _ _)) ▸ List.mem_cons_self _ _
    have hw := observe_writes_mem (addAll NewObjectCounter vpas) key hkmem
    rw [hcount] at hw
    simpa using hw
  · intro w hw hlbl
    rcases observe_writes_shape _ w hw with ⟨p, hp, rfl⟩
    have hne : p.1 ≠ key := by
      intro h
      exact hlbl ⟨by rw [h], by rw [h]⟩
    have hnd : (mapKeys (addAll NewObjectCounter vpas).cnt).Nodup :=
      mapKeys_nodup_addAll _ _ mapKeys_fresh_nodup
    have hval := entry_snd_of_nodupKeys _ hnd p hp
    rw [hother p.1 hne] at hval
    simp [hval]
  · intro oc v
    refine ⟨by rw [Add_cnt, mapGet_mapIncr_self], ?_⟩
    intro k2 hk2
    rw [Add_cnt, mapGet_mapIncr_ne _ _ _ hk2]

/-- Witness for C4: adding the two sample `Auto`-mode objects leaves
bucket `("Auto", true)` at 2, bucket `("Off", false)` at 0, and the flush
carries the value 2 for the `("Auto", "true")` labels. -/
theorem c4_same_key_accumulation_witness :
    mapGet (addAll NewObjectCounter [sampleVpa2, sampleVpaAuto]).cnt ⟨"Auto", true⟩ = 2 ∧
    mapGet (addAll NewObjectCounter [sampleVpa2, sampleVpaAuto]).cnt ⟨"Off", false⟩ = 0 ∧
    (⟨"Auto", fmtBool true, (2 : ℚ)⟩ : ObjectCountWrite)
      ∈ (ObjectCounter.Observe (addAll NewObjectCounter [sampleVpa2, sampleVpaAuto])).2 := by
  have h := c4_same_key_accumulation [sampleVpa2, sampleVpaAuto] ⟨"Auto", true⟩
    (by decide)
  refine ⟨by simpa using h.1, h.2.1 ⟨"Off", false⟩ (by decide), ?_⟩
  have hw := h.2.2.1 (by simp)
  simpa using hw

/-- C7: `Observe` leaves the counter's bucket map unchanged, and two
flushes with no intervening `Add` produce the same writes and leave every
gauge label at the same final value. -/
theorem c7_observe_readonly_idempotent (oc : ObjectCounter) :
    (ObjectCounter.Observe oc).1 = oc ∧
    (ObjectCounter.Observe ((ObjectCounter.Observe oc).1)).2
      = (ObjectCounter.Observe oc).2 ∧
    (∀ g l, applyWrites (applyWrites g (ObjectCounter.Observe oc).2)
        (ObjectCounter.Observe ((ObjectCounter.Observe oc).1)).2 l
      = applyWrites g (ObjectCounter.Observe oc).2 l) := by
  refine ⟨rfl, rfl, ?_⟩
  intro g l
  exact applyWrites_twice g _ l

/-- C10: after any `Add` sequence on a fresh counter every bucket count
is non-negative, the counts sum to the number of `Add` calls, and the
multiset of flushed writes depends only on the multiset of bucket keys
added, not on the order of the `Add` calls. -/
theorem c10_census_invariant (vpas : List Vpa) :
    (∀ p ∈ (addAll NewObjectCounter vpas).cnt, 0 ≤ p.2) ∧
    cntTotal (addAll NewObjectCounter vpas).cnt = vpas.length ∧
    (∀ vpas2 : List Vpa, (vpas.map vpaKey).Perm (vpas2.map vpaKey) →
      (ObjectCounter.Observe (addAll NewObjectCounter vpas)).2.Perm
        (ObjectCounter.Observe (addAll NewObjectCounter vpas2)).2) := by
  refine ⟨nonneg_addAll _ _ (fun p hp => le_of_eq (fresh_entries_zero p hp).symm), ?_, ?_⟩
  · rw [cntTotal_addAll, cntTotal_fresh]
    simp
  · intro vpas2 hperm
    have hcnt : (addAll NewObjectCounter vpas).cnt.Perm
        (addAll NewObjectCounter vpas2).cnt := by
      apply cnt_perm_of_same
      · exact mapKeys_nodup_addAll _ _ mapKeys_fresh_nodup
      · exact mapKeys_nodup_addAll _ _ mapKeys_fresh_nodup
      · intro k
        rw [mem_mapKeys_addAll, mem_mapKeys_addAll]
        constructor
        · rintro (h | h)
          · exact Or.inl h
          · exact Or.inr (hperm.mem_iff.mp h)
        · rintro (h | h)
          · exact Or.inl h
          · exact Or.inr (hperm.mem_iff.mpr h)
      · intro k
        rw [mapGet_addAll, mapGet_addAll, hperm.count_eq]
    exact hcnt.map _

/-- Witness for C10: the two sample objects added in either order give a
total count of 2 and flushed write lists that are permutations of each
other. -/
theorem c10_census_invariant_witness :
    cntTotal (addAll NewObjectCounter [sampleVpa2, sampleVpaAuto]).cnt = 2 ∧
    (ObjectCounter.Observe (addAll NewObjectCounter [sampleVpa2, sampleVpaAuto])).2.Perm
      (ObjectCounter.Observe (addAll NewObjectCounter [sampleVpaAuto, sampleVpa2])).2 := by
  refine ⟨?_, ?_⟩
  · have h := (c10_census_invariant [sampleVpa2, sampleVpaAuto]).2.1
    simpa using h
  · exact (c10_census_invariant [sampleVpa2, sampleVpaAuto]).2.2
      [sampleVpaAuto, sampleVpa2] (by decide)

end RecommenderMetrics
